import Mathlib

/-!
# Verification of the language-learning core algorithms

Shallow embedding of the repository's core numeric routines:

* the IRT engine (`sigmoid`, `probKnow`, `fisherInfo`, `updateThetaMAP`,
  `pickBestItem`) from `src/lib/irt.ts`;
* the FSRS-lite scheduler (`review`) from `src/lib/core/fsrs.ts`;
* the placement staircase (`start`, `update`, `shouldStop`) from
  `src/lib/core/placement.ts`;
* the yes/no screening completion and the CAT next-item choice of the
  assessment answer route.

Real-number (`ℝ`) definitions model the JavaScript float computations
exactly as written in the source, including the `1e-9` and `1e-6`
regularization constants.  Routines whose arithmetic is exact
(placement staircase, FSRS state updates, screening-completion
formulas) are embedded over `ℚ` so that they stay executable.
-/

namespace LangCore

/-! ## IRT engine (`src/lib/irt.ts`) -/

/-- `1e-9`, the regularization constant used throughout the IRT code. -/
noncomputable def eps9 : ℝ := 1 / 1000000000

/-- `sigmoid(x) = 1 / (1 + exp(-x))`. -/
noncomputable def sigmoid (x : ℝ) : ℝ := 1 / (1 + Real.exp (-x))

/-- `probKnow(theta, b, g) = g + (1 - g) * sigmoid(theta - b)`. -/
noncomputable def probKnow (theta b g : ℝ) : ℝ := g + (1 - g) * sigmoid (theta - b)

/-- The intermediate `q = (p - g) / (1 - g)` computed identically inside
`fisherInfo` and `updateThetaMAP`. -/
noncomputable def irtQ (theta b g : ℝ) : ℝ := (probKnow theta b g - g) / (1 - g)

/-- The intermediate `dp = (1 - g) * q * (1 - q)`. -/
noncomputable def irtDp (theta b g : ℝ) : ℝ :=
  (1 - g) * irtQ theta b g * (1 - irtQ theta b g)

/-- The regularized denominator `p * (1 - p) + 1e-9`. -/
noncomputable def irtDenom (theta b g : ℝ) : ℝ :=
  probKnow theta b g * (1 - probKnow theta b g) + eps9

/-- `fisherInfo(theta, b, g) = dp * dp / (p * (1 - p) + 1e-9)`. -/
noncomputable def fisherInfo (theta b g : ℝ) : ℝ :=
  irtDp theta b g * irtDp theta b g / irtDenom theta b g

/-- `ThetaState { theta, var }` of the IRT engine. -/
structure ThetaState where
  theta : ℝ
  var : ℝ

/-- The gradient
`grad = (y - p) * (dp / (p * (1 - p) + 1e-9)) - theta / V`
of `updateThetaMAP`. -/
noncomputable def mapGrad (theta V b g y : ℝ) : ℝ :=
  (y - probKnow theta b g) * (irtDp theta b g / irtDenom theta b g) - theta / V

/-- The Hessian
`hess = -(dp * dp / (p * (1 - p) + 1e-9)) - 1 / V` of `updateThetaMAP`. -/
noncomputable def mapHess (theta V b g : ℝ) : ℝ :=
  -(irtDp theta b g * irtDp theta b g / irtDenom theta b g) - 1 / V

/-- `updateThetaMAP`: one Newton-Raphson MAP step; returns
`thetaNew = theta - grad / (hess + 1e-9)` and
`varNew = min(1.0, max(0.02, -1 / (hess + 1e-9)))`. -/
noncomputable def updateThetaMAP (state : ThetaState) (b g y : ℝ) : ThetaState :=
  { theta := state.theta -
      mapGrad state.theta state.var b g y / (mapHess state.theta state.var b g + eps9)
    var := min 1 (max (1 / 50) (-1 / (mapHess state.theta state.var b g + eps9))) }

/-- A CAT candidate item: `id`, difficulty `b`, guessing floor `g` and an
exposure count (`c.exposure || 0` in the source). -/
structure CandidateItem where
  id : String
  b : ℝ
  g : ℝ
  exposure : ℕ

/-- The score `fisherInfo(theta, c.b, c.g) - 0.01 * (c.exposure || 0)`
assigned to each candidate by `pickBestItem`. -/
noncomputable def itemScore (theta : ℝ) (c : CandidateItem) : ℝ :=
  fisherInfo theta c.b c.g - (1 / 100) * (c.exposure : ℝ)

/-- `pickBestItem`: the source maps candidates to scores, sorts the scored
list in descending score order (JavaScript `sort` is stable) and returns the
first element, i.e. the earliest candidate of maximal score.  This is
modelled directly as a left fold keeping the earliest maximum. -/
noncomputable def pickBestItem (theta : ℝ) : List CandidateItem → Option CandidateItem
  | [] => none
  | c :: cs =>
    some (cs.foldl (fun best x => if itemScore theta best < itemScore theta x then x else best) c)

/-! ## Assessment answer route (`src/app/api/assessment/answer/route.ts`) -/

/-- The CAT next-item choice of the assessment answer route:
`filtered = candidates.filter(c => (c.exposure || 0) < 3)` followed by
`next = filtered[0] || candidates[0] || null`. -/
def catRouteNext (candidates : List CandidateItem) : Option CandidateItem :=
  (candidates.filter (fun c => c.exposure < 3)).head? <|> candidates.head?

/-- On yes/no completion the route computes
`falseAlarm = totalResponses > 0 ? min(0.5, pseudoHits / max(1, totalResponses)) : 0`
where `totalResponses` is the number of distinct yes/no items (real and
pseudo) having responses and `pseudoHits` counts pseudoword items marked
known. -/
def falseAlarmRate (pseudoHits totalItems : ℕ) : ℚ :=
  if 0 < totalItems then min (1 / 2) ((pseudoHits : ℚ) / max 1 (totalItems : ℚ)) else 0

/-- The bias-corrected accuracy of the route: given `k` hits among `n` real
yes/no responses and the false-alarm rate `fa`,
`acc = n > 0 ? max(0, min(1, (k/n - fa) / max(1e-6, 1 - fa))) : 0.5`. -/
def correctedAcc (k n : ℕ) (fa : ℚ) : ℚ :=
  if 0 < n then
    max 0 (min 1 (((k : ℚ) / (n : ℚ) - fa) / max (1 / 1000000) (1 - fa)))
  else 1 / 2

/-- `theta0 = max(-3, min(3, (acc - 0.5) * 6))`. -/
def theta0FromAcc (acc : ℚ) : ℚ := max (-3) (min 3 ((acc - 1 / 2) * 6))

/-- The `(currentTheta, currentVar)` pair persisted when the yes/no stage
completes: `theta0` as above and the constant variance `0.7`. -/
def yesnoInit (pseudoHits totalItems k n : ℕ) : ℚ × ℚ :=
  (theta0FromAcc (correctedAcc k n (falseAlarmRate pseudoHits totalItems)), 7 / 10)

/-! ## FSRS-lite scheduler (`src/lib/core/fsrs.ts`) -/

/-- The stability multiplier
`rating === 1 ? 0.5 : rating === 2 ? 0.9 : rating === 3 ? 1.6 : 2.2`.
The rating is embedded as an integer so that the fall-through behaviour on
out-of-range ratings is kept. -/
def mult (rating : ℤ) : ℚ :=
  if rating = 1 then 1 / 2
  else if rating = 2 then 9 / 10
  else if rating = 3 then 8 / 5
  else 11 / 5

/-- The difficulty delta `rating === 4 ? -0.2 : rating === 1 ? +0.3 : 0`. -/
def deltaD (rating : ℤ) : ℚ :=
  if rating = 4 then -(1 / 5) else if rating = 1 then 3 / 10 else 0

/-- New stability `s = min(60, max(0.3, s * mult))`. -/
def reviewS (s : ℚ) (rating : ℤ) : ℚ := min 60 (max (3 / 10) (s * mult rating))

/-- New difficulty `d = min(9.0, max(1.3, d + delta))`. -/
def reviewD (d : ℚ) (rating : ℤ) : ℚ := min 9 (max (13 / 10) (d + deltaD rating))

/-- `days = max(1, round(pow(s, 1.07)))` computed on the updated stability. -/
noncomputable def intervalDays (s : ℚ) : ℤ :=
  max 1 (round ((s : ℝ) ^ ((107 : ℝ) / 100)))

/-- The scheduler `review`: updated stability, updated difficulty and the
interval in days (the due date is `now + days * 86400000`, not modelled). -/
noncomputable def review (s d : ℚ) (rating : ℤ) : ℚ × ℚ × ℤ :=
  (reviewS s rating, reviewD d rating, intervalDays (reviewS s rating))

/-- The rating bound of the API boundary validator `StudyReviewSchema`
(`z.number().int().min(1).max(4)`). -/
def studyReviewRatingValid (rating : ℤ) : Bool :=
  decide (1 ≤ rating) && decide (rating ≤ 4)

/-! ## Placement staircase (`src/lib/core/placement.ts`) -/

/-- The binary placement outcome. -/
inductive POutcome
  | easy
  | hard
deriving DecidableEq

/-- `PlacementState { theta, step, n }` (the optional `seenLexemeIds` and
`history` fields are not used by the staircase arithmetic). -/
structure PlacementState where
  theta : ℚ
  step : ℚ
  n : ℕ
deriving DecidableEq

/-- `start() = { theta: 0, step: 1.0, n: 0 }`. -/
def start : PlacementState := ⟨0, 1, 0⟩

/-- `update`: `theta += outcome === 'easy' ? step : -step`; `n += 1`;
`step *= 0.5` when the incremented `n` is even. -/
def update (s : PlacementState) (o : POutcome) : PlacementState :=
  { theta := s.theta + (if o = POutcome.easy then s.step else -s.step)
    step := if (s.n + 1) % 2 = 0 then s.step * (1 / 2) else s.step
    n := s.n + 1 }

/-- `shouldStop(state) = (n >= 10 && step <= 0.2) || n >= 15`. -/
def shouldStop (s : PlacementState) : Bool :=
  (decide (10 ≤ s.n) && decide (s.step ≤ (1 / 5 : ℚ))) || decide (15 ≤ s.n)

/-- The response sequence of the end-to-end staircase example. -/
def demoResponses : List POutcome :=
  [POutcome.easy, POutcome.easy, POutcome.hard, POutcome.easy, POutcome.hard,
   POutcome.hard, POutcome.easy, POutcome.easy, POutcome.hard]

end LangCore

namespace LangCore

/-! ## Basic facts about the response model -/

theorem sigmoid_pos (x : ℝ) : 0 < sigmoid x := by
  unfold sigmoid
  positivity

theorem sigmoid_lt_one (x : ℝ) : sigmoid x < 1 := by
  unfold sigmoid
  rw [div_lt_one (by positivity)]
  linarith [Real.exp_pos (-x)]

theorem sigmoid_lt_sigmoid {x y : ℝ} (h : x < y) : sigmoid x < sigmoid y := by
  unfold sigmoid
  exact one_div_lt_one_div_of_lt (by positivity) (by
    linarith [Real.exp_lt_exp.mpr (neg_lt_neg h)])

theorem probKnow_gt {g : ℝ} (hg1 : g < 1) (theta b : ℝ) : g < probKnow theta b g := by
  unfold probKnow
  nlinarith [sigmoid_pos (theta - b)]

theorem probKnow_lt_one {g : ℝ} (hg1 : g < 1) (theta b : ℝ) : probKnow theta b g < 1 := by
  unfold probKnow
  nlinarith [sigmoid_lt_one (theta - b)]

theorem probKnow_pos {g : ℝ} (hg0 : 0 ≤ g) (hg1 : g < 1) (theta b : ℝ) :
    0 < probKnow theta b g :=
  lt_of_le_of_lt hg0 (probKnow_gt hg1 theta b)

theorem irtQ_eq_sigmoid {g : ℝ} (hg1 : g < 1) (theta b : ℝ) :
    irtQ theta b g = sigmoid (theta - b) := by
  have h : (1 : ℝ) - g ≠ 0 := sub_ne_zero.mpr hg1.ne'
  unfold irtQ probKnow
  field_simp

theorem irtDp_pos {g : ℝ} (hg1 : g < 1) (theta b : ℝ) : 0 < irtDp theta b g := by
  unfold irtDp
  rw [irtQ_eq_sigmoid hg1]
  exact mul_pos (mul_pos (by linarith) (sigmoid_pos (theta - b)))
    (by linarith [sigmoid_lt_one (theta - b)])

theorem irtDenom_pos {g : ℝ} (hg0 : 0 ≤ g) (hg1 : g < 1) (theta b : ℝ) :
    0 < irtDenom theta b g := by
  have h1 := probKnow_pos hg0 hg1 theta b
  have h2 := probKnow_lt_one hg1 theta b
  unfold irtDenom eps9
  nlinarith

/-- C1: for every finite `theta` and `b` and every `g` with `0 ≤ g < 1`, the
item-response probability `probKnow(theta, b, g) = g + (1-g)*sigmoid(theta-b)`
lies in `[g, 1)`, is strictly increasing in `theta` and strictly decreasing
in `b`. -/
theorem probKnow_range_and_monotone (g : ℝ) (hg0 : 0 ≤ g) (hg1 : g < 1) :
    (∀ theta b : ℝ, g ≤ probKnow theta b g ∧ probKnow theta b g < 1) ∧
    (∀ b theta1 theta2 : ℝ, theta1 < theta2 →
      probKnow theta1 b g < probKnow theta2 b g) ∧
    (∀ theta b1 b2 : ℝ, b1 < b2 → probKnow theta b2 g < probKnow theta b1 g) := by
  refine ⟨fun theta b => ⟨(probKnow_gt hg1 theta b).le, probKnow_lt_one hg1 theta b⟩,
    fun b t1 t2 h => ?_, fun theta b1 b2 h => ?_⟩
  · have hs := sigmoid_lt_sigmoid (x := t1 - b) (y := t2 - b) (by linarith)
    unfold probKnow
    nlinarith
  · have hs := sigmoid_lt_sigmoid (x := theta - b2) (y := theta - b1) (by linarith)
    unfold probKnow
    nlinarith

/-- Witness for C1 at the concrete guessing floor `g = 1/4`. -/
theorem probKnow_range_and_monotone_witness :
    (0 : ℝ) ≤ 1 / 4 ∧ (1 / 4 : ℝ) < 1 ∧
    ((∀ theta b : ℝ, (1 / 4 : ℝ) ≤ probKnow theta b (1 / 4) ∧
        probKnow theta b (1 / 4) < 1) ∧
      (∀ b theta1 theta2 : ℝ, theta1 < theta2 →
        probKnow theta1 b (1 / 4) < probKnow theta2 b (1 / 4)) ∧
      (∀ theta b1 b2 : ℝ, b1 < b2 →
        probKnow theta b2 (1 / 4) < probKnow theta b1 (1 / 4))) :=
  ⟨by norm_num, by norm_num,
    probKnow_range_and_monotone (1 / 4) (by norm_num) (by norm_num)⟩

end LangCore

namespace LangCore

/-! ## Facts about the MAP update -/

theorem mapHess_add_eps9_neg {g V : ℝ} (hg0 : 0 ≤ g) (hg1 : g < 1) (hV0 : 0 < V)
    (hV1 : V ≤ 1) (theta b : ℝ) : mapHess theta V b g + eps9 < 0 := by
  have hI : 0 ≤ irtDp theta b g * irtDp theta b g / irtDenom theta b g :=
    div_nonneg (mul_self_nonneg _) (irtDenom_pos hg0 hg1 theta b).le
  have hW : 1 ≤ 1 / V := by
    rw [le_div_iff hV0]
    linarith
  unfold mapHess eps9
  linarith

/-- C2 (amended): with `0 ≤ g < 1` and variance `0 < V ≤ 1`, a correct
response (`y = 1`) strictly increases `theta` whenever `theta ≤ 0`, and an
incorrect response (`y = 0`) strictly decreases it whenever `0 ≤ theta`.
(In general the Gaussian-prior term `theta / V` of the gradient can dominate
the likelihood term and pull `theta` toward `0`, reversing the direction.) -/
theorem updateThetaMAP_direction (theta b g V : ℝ) (hg0 : 0 ≤ g) (hg1 : g < 1)
    (hV0 : 0 < V) (hV1 : V ≤ 1) :
    (theta ≤ 0 → theta < (updateThetaMAP ⟨theta, V⟩ b g 1).theta) ∧
    (0 ≤ theta → (updateThetaMAP ⟨theta, V⟩ b g 0).theta < theta) := by
  have hH := mapHess_add_eps9_neg hg0 hg1 hV0 hV1 theta b
  have hDp := irtDp_pos hg1 theta b
  have hDen := irtDenom_pos hg0 hg1 theta b
  have hp1 := probKnow_lt_one hg1 theta b
  have hp0 := probKnow_pos hg0 hg1 theta b
  have hfrac : 0 < irtDp theta b g / irtDenom theta b g := div_pos hDp hDen
  constructor
  · intro ht
    have hgrad : 0 < mapGrad theta V b g 1 := by
      unfold mapGrad
      have h2 : theta / V ≤ 0 := div_nonpos_of_nonpos_of_nonneg ht hV0.le
      have h3 : 0 < (1 - probKnow theta b g) * (irtDp theta b g / irtDenom theta b g) :=
        mul_pos (by linarith) hfrac
      linarith
    have hdiv : mapGrad theta V b g 1 / (mapHess theta V b g + eps9) < 0 :=
      div_neg_of_pos_of_neg hgrad hH
    show theta < theta - mapGrad theta V b g 1 / (mapHess theta V b g + eps9)
    linarith
  · intro ht
    have hgrad : mapGrad theta V b g 0 < 0 := by
      unfold mapGrad
      have h2 : 0 ≤ theta / V := div_nonneg ht hV0.le
      have h3 : 0 < probKnow theta b g * (irtDp theta b g / irtDenom theta b g) :=
        mul_pos hp0 hfrac
      nlinarith
    have hdiv : 0 < mapGrad theta V b g 0 / (mapHess theta V b g + eps9) :=
      div_pos_of_neg_of_neg hgrad hH
    show theta - mapGrad theta V b g 0 / (mapHess theta V b g + eps9) < theta
    linarith

/-- Witness for the amended C2 at `theta = 0`, `b = 0`, `g = 1/4`, `V = 1`:
both directions apply at the concrete state of the repository's unit test. -/
theorem updateThetaMAP_direction_witness :
    (0 : ℝ) ≤ 1 / 4 ∧ (1 / 4 : ℝ) < 1 ∧ (0 : ℝ) < 1 ∧ (1 : ℝ) ≤ 1 ∧
    (((0 : ℝ) ≤ 0 → (0 : ℝ) < (updateThetaMAP ⟨0, 1⟩ 0 (1 / 4) 1).theta) ∧
      ((0 : ℝ) ≤ 0 → (updateThetaMAP ⟨0, 1⟩ 0 (1 / 4) 0).theta < 0)) :=
  ⟨by norm_num, by norm_num, by norm_num, le_refl 1,
    updateThetaMAP_direction 0 0 (1 / 4) 1 (by norm_num) (by norm_num) (by norm_num)
      (le_refl 1)⟩

/-- C2 counterexample: at state `(theta, var) = (10, 0.7)` (variance positive,
`g = 0 ∈ [0,1)`) and item `b = 0`, the correct outcome `y = 1` strictly
DEcreases `theta`: the prior term `theta/V = 100/7` dominates the bounded
likelihood gradient. -/
theorem updateThetaMAP_y1_can_decrease :
    (0 : ℝ) < 7 / 10 ∧ (0 : ℝ) ≤ 0 ∧ (0 : ℝ) < 1 ∧
    (updateThetaMAP ⟨10, 7 / 10⟩ 0 0 1).theta < 10 := by
  refine ⟨by norm_num, le_refl 0, by norm_num, ?_⟩
  have hDp := irtDp_pos (g := 0) (by norm_num) 10 0
  have hDen := irtDenom_pos (g := 0) (le_refl 0) (by norm_num) 10 0
  have hp1 := probKnow_lt_one (g := 0) (by norm_num) 10 0
  have hq : irtQ 10 0 0 = probKnow 10 0 0 := by
    unfold irtQ
    norm_num
  have hdpeq : irtDp 10 0 0 = probKnow 10 0 0 * (1 - probKnow 10 0 0) := by
    unfold irtDp
    rw [hq]
    ring
  have hfrac : irtDp 10 0 0 / irtDenom 10 0 0 < 1 := by
    rw [div_lt_one hDen, hdpeq]
    unfold irtDenom eps9
    norm_num
  have hfr0 : 0 < irtDp 10 0 0 / irtDenom 10 0 0 := div_pos hDp hDen
  have hgrad : mapGrad 10 (7 / 10) 0 0 1 < 0 := by
    unfold mapGrad
    have h1 : (1 - probKnow 10 0 0) * (irtDp 10 0 0 / irtDenom 10 0 0) < 1 := by
      nlinarith [probKnow_pos (g := 0) (le_refl 0) (by norm_num) 10 0]
    have h2 : (10 : ℝ) / (7 / 10) = 100 / 7 := by norm_num
    rw [h2]
    linarith
  have hH : mapHess 10 (7 / 10) 0 0 + eps9 < 0 :=
    mapHess_add_eps9_neg (le_refl 0) (by norm_num) (by norm_num) (by norm_num) 10 0
  have hdiv : 0 < mapGrad 10 (7 / 10) 0 0 1 / (mapHess 10 (7 / 10) 0 0 + eps9) :=
    div_pos_of_neg_of_neg hgrad hH
  show (10 : ℝ) - mapGrad 10 (7 / 10) 0 0 1 / (mapHess 10 (7 / 10) 0 0 + eps9) < 10
  linarith

end LangCore

namespace LangCore

/-- C3 (amended): for `0 ≤ g < 1` and input variance `V ∈ [0.02, 1.0]`, the
variance returned by `updateThetaMAP` always lies in `[0.02, 1.0]`, and it is
non-increasing up to the `1e-9` regularization slack:
`var' ≤ V + 2e-9`.  (Exact non-increase fails: when the item carries almost
no Fisher information the `1e-9` terms let the variance grow by about
`1e-9 * V^2`.) -/
theorem updateThetaMAP_var_range (theta b g V y : ℝ) (hg0 : 0 ≤ g) (hg1 : g < 1)
    (hV1 : 1 / 50 ≤ V) (hV2 : V ≤ 1) :
    1 / 50 ≤ (updateThetaMAP ⟨theta, V⟩ b g y).var ∧
    (updateThetaMAP ⟨theta, V⟩ b g y).var ≤ 1 ∧
    (updateThetaMAP ⟨theta, V⟩ b g y).var ≤ V + 2 * eps9 := by
  have hV0 : 0 < V := lt_of_lt_of_le (by norm_num) hV1
  have hDen := irtDenom_pos hg0 hg1 theta b
  have hI : 0 ≤ irtDp theta b g * irtDp theta b g / irtDenom theta b g :=
    div_nonneg (mul_self_nonneg _) hDen.le
  have hW : 1 ≤ 1 / V := by
    rw [le_div_iff₀ hV0]
    linarith
  have hVW : V * (1 / V) = 1 := by field_simp
  have heq : -(mapHess theta V b g + eps9) =
      irtDp theta b g * irtDp theta b g / irtDenom theta b g + 1 / V - eps9 := by
    unfold mapHess
    ring
  have he : eps9 = 1 / 1000000000 := rfl
  have hpos : 0 < irtDp theta b g * irtDp theta b g / irtDenom theta b g + 1 / V - eps9 := by
    rw [he]
    linarith
  have hx : -1 / (mapHess theta V b g + eps9) ≤ V + 2 * eps9 := by
    have h1 : -1 / (mapHess theta V b g + eps9) =
        1 / (irtDp theta b g * irtDp theta b g / irtDenom theta b g + 1 / V - eps9) := by
      rw [← heq, neg_div, div_neg]
    rw [h1, div_le_iff₀ hpos]
    rw [he] at *
    nlinarith [mul_nonneg hV0.le hI]
  refine ⟨le_min (by norm_num) (le_max_left _ _), min_le_left _ _, ?_⟩
  show min 1 (max (1 / 50) (-1 / (mapHess theta V b g + eps9))) ≤ V + 2 * eps9
  calc min 1 (max (1 / 50) (-1 / (mapHess theta V b g + eps9)))
      ≤ max (1 / 50) (-1 / (mapHess theta V b g + eps9)) := min_le_right _ _
    _ ≤ V + 2 * eps9 := max_le (by rw [he]; linarith) hx

/-- Witness for the amended C3 at `theta = 0`, `b = 0`, `g = 1/4`,
`V = 0.7`, `y = 1`. -/
theorem updateThetaMAP_var_range_witness :
    (0 : ℝ) ≤ 1 / 4 ∧ (1 / 4 : ℝ) < 1 ∧ (1 / 50 : ℝ) ≤ 7 / 10 ∧ (7 / 10 : ℝ) ≤ 1 ∧
    (1 / 50 ≤ (updateThetaMAP ⟨0, 7 / 10⟩ 0 (1 / 4) 1).var ∧
      (updateThetaMAP ⟨0, 7 / 10⟩ 0 (1 / 4) 1).var ≤ 1 ∧
      (updateThetaMAP ⟨0, 7 / 10⟩ 0 (1 / 4) 1).var ≤ 7 / 10 + 2 * eps9) :=
  ⟨by norm_num, by norm_num, by norm_num, by norm_num,
    updateThetaMAP_var_range 0 0 (1 / 4) (7 / 10) 1 (by norm_num) (by norm_num)
      (by norm_num) (by norm_num)⟩

/-- C3 counterexample: at state `(theta, var) = (0, 0.5)` (variance inside
`[0.02, 1.0]`) and the nearly zero-information item `b = 50`, `g = 0`, the
returned variance strictly EXceeds the input variance `0.5`. -/
theorem updateThetaMAP_var_not_monotone :
    (1 / 50 : ℝ) ≤ 1 / 2 ∧ (1 / 2 : ℝ) ≤ 1 ∧
    (1 / 2 : ℝ) < (updateThetaMAP ⟨0, 1 / 2⟩ 50 0 0).var := by
  refine ⟨by norm_num, by norm_num, ?_⟩
  have he : eps9 = 1 / 1000000000 := rfl
  -- the response probability at `theta - b = -50` is below `1e-9`
  have hexp1 : (2 : ℝ) < Real.exp 1 := by
    have h := Real.exp_one_gt_d9
    norm_num at h ⊢
    linarith
  have hexp50 : Real.exp 50 = Real.exp 1 ^ (50 : ℕ) := by
    rw [← Real.exp_nat_mul]
    norm_num
  have hbig : (1000000000 : ℝ) < Real.exp 50 := by
    have h1 : (2 : ℝ) ^ (50 : ℕ) ≤ Real.exp 1 ^ (50 : ℕ) :=
      pow_le_pow_left (by norm_num) hexp1.le 50
    have h2 : (1000000000 : ℝ) < 2 ^ (50 : ℕ) := by norm_num
    rw [hexp50]
    linarith
  have hsig : probKnow 0 50 0 = 1 / (1 + Real.exp 50) := by
    unfold probKnow sigmoid
    norm_num
  have hp0 := probKnow_pos (g := 0) (le_refl 0) (by norm_num) 0 50
  have hp1 := probKnow_lt_one (g := 0) (by norm_num) 0 50
  have hplt : probKnow 0 50 0 < eps9 := by
    rw [hsig, he]
    rw [div_lt_div_iff (by linarith [Real.exp_pos (50 : ℝ)]) (by norm_num)]
    linarith
  have hDen := irtDenom_pos (g := 0) (le_refl 0) (by norm_num) 0 50
  have hq : irtQ 0 50 0 = probKnow 0 50 0 := by
    unfold irtQ
    norm_num
  have hdpeq : irtDp 0 50 0 = probKnow 0 50 0 * (1 - probKnow 0 50 0) := by
    unfold irtDp
    rw [hq]
    ring
  -- the Fisher-information term is below `1e-9`
  have hIsmall : irtDp 0 50 0 * irtDp 0 50 0 / irtDenom 0 50 0 < eps9 := by
    rw [div_lt_iff₀ hDen, hdpeq]
    unfold irtDenom
    have hx0 : 0 < probKnow 0 50 0 * (1 - probKnow 0 50 0) :=
      mul_pos hp0 (by linarith)
    have hplt2 : probKnow 0 50 0 < 1 / 1000000000 := he ▸ hplt
    have hxlt : probKnow 0 50 0 * (1 - probKnow 0 50 0) < 1 / 1000000000 := by
      nlinarith
    rw [he]
    nlinarith [mul_lt_mul_of_pos_right hxlt hx0]
  have hI : 0 ≤ irtDp 0 50 0 * irtDp 0 50 0 / irtDenom 0 50 0 :=
    div_nonneg (mul_self_nonneg _) hDen.le
  have heq : -(mapHess 0 (1 / 2) 50 0 + eps9) =
      irtDp 0 50 0 * irtDp 0 50 0 / irtDenom 0 50 0 + 2 - eps9 := by
    unfold mapHess
    norm_num
    ring
  have hpos : 0 < irtDp 0 50 0 * irtDp 0 50 0 / irtDenom 0 50 0 + 2 - eps9 := by
    rw [he]
    linarith
  have h1 : -1 / (mapHess 0 (1 / 2) 50 0 + eps9) =
      1 / (irtDp 0 50 0 * irtDp 0 50 0 / irtDenom 0 50 0 + 2 - eps9) := by
    rw [← heq, neg_div, div_neg]
  have hlow : (1 / 2 : ℝ) < -1 / (mapHess 0 (1 / 2) 50 0 + eps9) := by
    rw [h1]
    have : irtDp 0 50 0 * irtDp 0 50 0 / irtDenom 0 50 0 + 2 - eps9 < 2 := by
      rw [he] at hIsmall ⊢
      linarith
    calc (1 / 2 : ℝ) = 1 / 2 := rfl
      _ < 1 / (irtDp 0 50 0 * irtDp 0 50 0 / irtDenom 0 50 0 + 2 - eps9) :=
          one_div_lt_one_div_of_lt hpos this
  have hup : -1 / (mapHess 0 (1 / 2) 50 0 + eps9) ≤ 1 := by
    rw [h1]
    rw [div_le_one hpos, he]
    linarith
  show (1 / 2 : ℝ) < min 1 (max (1 / 50) (-1 / (mapHess 0 (1 / 2) 50 0 + eps9)))
  rw [max_eq_right (by linarith), min_eq_right hup]
  exact hlow

end LangCore

namespace LangCore

/-- C4 counterexample: in a session where 4 yes/no items were answered
(2 real and 2 pseudowords), one pseudoword was marked known
(`pseudoHits = 1`) and 1 of 2 real responses was a hit, the route computes
`falseAlarmRate = 1/4` — `pseudoHits` divided by the count of ALL answered
yes/no items — and `theta0 = -1`; the claimed rate (fraction of pseudoword
items marked known, i.e. `1/2`) would give `theta0 = -3`. -/
theorem yesnoInit_denominator_cx :
    falseAlarmRate 1 4 = 1 / 4 ∧
    (yesnoInit 1 4 1 2).1 = -1 ∧
    theta0FromAcc (max 0 (min 1 (((1 : ℚ) / 2 - 1 / 2) / (1 - 1 / 2)))) = -3 ∧
    ((-1 : ℚ) ≠ -3) := by
  refine ⟨?_, ?_, ?_, by norm_num⟩ <;>
    norm_num [falseAlarmRate, yesnoInit, correctedAcc, theta0FromAcc]

/-- C4 (amended): on yes/no completion with at least one answered yes/no item
and at least one real response, `falseAlarmRate = min(0.5, pseudoHits /
max(1, totalAnswered))` where the denominator counts ALL answered yes/no
items (real and pseudo), not just pseudowords; the bias-corrected hit rate is
`corrected = clamp((hitRate - falseAlarmRate) / (1 - falseAlarmRate), 0, 1)`
(the `1e-6` floor on the divisor is inert because `falseAlarmRate ≤ 0.5`);
`theta0 = clamp((corrected - 0.5) * 6, -3, 3)`; and the initial variance is
`0.7`. -/
theorem yesnoInit_formula (pseudoHits totalItems k n : ℕ) (ht : 0 < totalItems)
    (hn : 0 < n) :
    falseAlarmRate pseudoHits totalItems
        = min (1 / 2) ((pseudoHits : ℚ) / max 1 (totalItems : ℚ)) ∧
    falseAlarmRate pseudoHits totalItems ≤ 1 / 2 ∧
    correctedAcc k n (falseAlarmRate pseudoHits totalItems)
        = max 0 (min 1 (((k : ℚ) / (n : ℚ) - falseAlarmRate pseudoHits totalItems) /
            (1 - falseAlarmRate pseudoHits totalItems))) ∧
    (yesnoInit pseudoHits totalItems k n).1
        = max (-3) (min 3
            ((correctedAcc k n (falseAlarmRate pseudoHits totalItems) - 1 / 2) * 6)) ∧
    (yesnoInit pseudoHits totalItems k n).2 = 7 / 10 := by
  have h1 : falseAlarmRate pseudoHits totalItems
      = min (1 / 2) ((pseudoHits : ℚ) / max 1 (totalItems : ℚ)) := by
    unfold falseAlarmRate
    rw [if_pos ht]
  have h2 : falseAlarmRate pseudoHits totalItems ≤ 1 / 2 := by
    rw [h1]
    exact min_le_left _ _
  have h3 : max (1 / 1000000 : ℚ) (1 - falseAlarmRate pseudoHits totalItems)
      = 1 - falseAlarmRate pseudoHits totalItems := max_eq_right (by linarith)
  refine ⟨h1, h2, ?_, rfl, rfl⟩
  unfold correctedAcc
  rw [if_pos hn, h3]

/-- Witness for the amended C4 at the concrete session of the
counterexample: 4 answered yes/no items, 1 pseudoword hit, 1 hit among 2
real responses. -/
theorem yesnoInit_formula_witness :
    0 < 4 ∧ 0 < 2 ∧
    (falseAlarmRate 1 4 = min (1 / 2) ((1 : ℚ) / max 1 (4 : ℚ)) ∧
      falseAlarmRate 1 4 ≤ 1 / 2 ∧
      correctedAcc 1 2 (falseAlarmRate 1 4)
          = max 0 (min 1 (((1 : ℚ) / (2 : ℚ) - falseAlarmRate 1 4) /
              (1 - falseAlarmRate 1 4))) ∧
      (yesnoInit 1 4 1 2).1
          = max (-3) (min 3 ((correctedAcc 1 2 (falseAlarmRate 1 4) - 1 / 2) * 6)) ∧
      (yesnoInit 1 4 1 2).2 = 7 / 10) :=
  ⟨by norm_num, by norm_num, yesnoInit_formula 1 4 1 2 (by norm_num) (by norm_num)⟩

end LangCore

namespace LangCore

/-! ## C5: CAT item selection -/

/-- Below-theta candidate (`b = -5`), zero exposure, earliest presented. -/
noncomputable def catLow : CandidateItem := ⟨"low", -5, 1 / 4, 0⟩

/-- At-theta candidate (`b = 0` at `theta = 0`), zero exposure. -/
noncomputable def catMid : CandidateItem := ⟨"mid", 0, 1 / 4, 0⟩

/-- Above-theta candidate (`b = 5`), zero exposure. -/
noncomputable def catHigh : CandidateItem := ⟨"high", 5, 1 / 4, 0⟩

theorem sigmoid_zero : sigmoid 0 = 1 / 2 := by
  unfold sigmoid
  rw [neg_zero, Real.exp_zero]
  norm_num

theorem exp_five_gt : (148 : ℝ) < Real.exp 5 := by
  have h2 : Real.exp 5 = Real.exp 1 ^ (5 : ℕ) := by
    rw [← Real.exp_nat_mul]
    norm_num
  have h3 : (2.7182818283 : ℝ) ^ (5 : ℕ) ≤ Real.exp 1 ^ (5 : ℕ) :=
    pow_le_pow_left₀ (by norm_num) Real.exp_one_gt_d9.le 5
  have h4 : (148 : ℝ) < (2.7182818283 : ℝ) ^ (5 : ℕ) := by norm_num
  rw [h2]
  linarith

theorem sigmoid_five_gt : 148 / 149 < sigmoid 5 := by
  have ht : Real.exp (-5) < 1 / 148 := by
    rw [Real.exp_neg, inv_eq_one_div]
    exact one_div_lt_one_div_of_lt (by norm_num) exp_five_gt
  have hpos : (0 : ℝ) < 1 + Real.exp (-5) := by positivity
  have h1 : 1 / (149 / 148 : ℝ) < 1 / (1 + Real.exp (-5)) :=
    one_div_lt_one_div_of_lt hpos (by linarith)
  unfold sigmoid
  norm_num at h1 ⊢
  linarith

theorem sigmoid_neg_five_lt : sigmoid (-5) < 1 / 149 := by
  have h : sigmoid (-5) = 1 / (1 + Real.exp 5) := by
    unfold sigmoid
    rw [neg_neg]
  rw [h]
  exact one_div_lt_one_div_of_lt (by norm_num) (by linarith [exp_five_gt])

/-- `fisherInfo` written out in terms of the sigmoid. -/
theorem fisherInfo_sigmoid {g : ℝ} (hg1 : g < 1) (theta b : ℝ) :
    fisherInfo theta b g =
      (1 - g) * sigmoid (theta - b) * (1 - sigmoid (theta - b)) *
        ((1 - g) * sigmoid (theta - b) * (1 - sigmoid (theta - b))) /
      ((g + (1 - g) * sigmoid (theta - b)) *
        (1 - (g + (1 - g) * sigmoid (theta - b))) + eps9) := by
  unfold fisherInfo irtDp irtDenom probKnow
  rw [irtQ_eq_sigmoid hg1]

theorem fisherInfo_mid_ge : (9 / 64 : ℝ) ≤ fisherInfo 0 0 (1 / 4) := by
  rw [fisherInfo_sigmoid (by norm_num), show (0 : ℝ) - 0 = 0 by norm_num, sigmoid_zero,
    show eps9 = (1 / 1000000000 : ℝ) from rfl]
  norm_num

theorem fisherInfo_low_lt : fisherInfo 0 (-5) (1 / 4) < 9 / 64 := by
  rw [fisherInfo_sigmoid (by norm_num), show (0 : ℝ) - (-5) = 5 by norm_num,
    show eps9 = (1 / 1000000000 : ℝ) from rfl]
  have hs0 := sigmoid_pos 5
  have hs1 := sigmoid_lt_one 5
  have hsl := sigmoid_five_gt
  have hu0 : (0 : ℝ) < 1 - sigmoid 5 := by linarith
  have hu : (1 : ℝ) - sigmoid 5 < 1 / 149 := by linarith
  have hD : (0 : ℝ) < (1 / 4 + (1 - 1 / 4) * sigmoid 5) *
      (1 - (1 / 4 + (1 - 1 / 4) * sigmoid 5)) + 1 / 1000000000 := by
    nlinarith
  rw [div_lt_iff₀ hD]
  nlinarith [mul_lt_mul_of_pos_right hu hu0, mul_pos hs0 hu0,
    mul_pos (mul_pos hs0 hs0) (mul_pos hu0 hu0), sq_nonneg (sigmoid 5)]

theorem fisherInfo_high_lt : fisherInfo 0 5 (1 / 4) < 9 / 64 := by
  rw [fisherInfo_sigmoid (by norm_num), show (0 : ℝ) - 5 = -5 by norm_num,
    show eps9 = (1 / 1000000000 : ℝ) from rfl]
  have hs0 := sigmoid_pos (-5)
  have hs1 := sigmoid_lt_one (-5)
  have hsu := sigmoid_neg_five_lt
  have hu0 : (0 : ℝ) < 1 - sigmoid (-5) := by linarith
  have hD : (0 : ℝ) < (1 / 4 + (1 - 1 / 4) * sigmoid (-5)) *
      (1 - (1 / 4 + (1 - 1 / 4) * sigmoid (-5))) + 1 / 1000000000 := by
    nlinarith
  rw [div_lt_iff₀ hD]
  nlinarith [mul_lt_mul_of_pos_right hsu hs0, mul_pos hs0 hu0,
    mul_pos (mul_pos hs0 hs0) (mul_pos hu0 hu0)]

end LangCore

namespace LangCore

theorem itemScore_low : itemScore 0 catLow = fisherInfo 0 (-5) (1 / 4) := by
  unfold itemScore catLow
  norm_num

theorem itemScore_mid : itemScore 0 catMid = fisherInfo 0 0 (1 / 4) := by
  unfold itemScore catMid
  norm_num

theorem itemScore_high : itemScore 0 catHigh = fisherInfo 0 5 (1 / 4) := by
  unfold itemScore catHigh
  norm_num

/-- C5 (code bug): with the three zero-exposure candidates below, at and
above `theta = 0` (equal guessing `g = 1/4`), presented in that order, the
at-theta item has the strictly largest Fisher information, and the library's
`pickBestItem` would return it; but the assessment answer route never calls
`pickBestItem`: it returns the earliest-presented candidate with
`exposure < 3`, here the below-theta item, contradicting its own
`highest Fisher info near theta` comment. -/
theorem catRouteNext_ignores_fisherInfo :
    fisherInfo 0 catLow.b catLow.g < fisherInfo 0 catMid.b catMid.g ∧
    fisherInfo 0 catHigh.b catHigh.g < fisherInfo 0 catMid.b catMid.g ∧
    pickBestItem 0 [catLow, catMid, catHigh] = some catMid ∧
    catRouteNext [catLow, catMid, catHigh] = some catLow := by
  have h1 : itemScore 0 catLow < itemScore 0 catMid := by
    rw [itemScore_low, itemScore_mid]
    linarith [fisherInfo_low_lt, fisherInfo_mid_ge]
  have h2 : ¬ itemScore 0 catMid < itemScore 0 catHigh := by
    rw [itemScore_mid, itemScore_high]
    push_neg
    linarith [fisherInfo_high_lt, fisherInfo_mid_ge]
  refine ⟨?_, ?_, ?_, ?_⟩
  · show fisherInfo 0 (-5) (1 / 4) < fisherInfo 0 0 (1 / 4)
    linarith [fisherInfo_low_lt, fisherInfo_mid_ge]
  · show fisherInfo 0 5 (1 / 4) < fisherInfo 0 0 (1 / 4)
    linarith [fisherInfo_high_lt, fisherInfo_mid_ge]
  · show some (List.foldl
        (fun best x => if itemScore 0 best < itemScore 0 x then x else best)
        catLow [catMid, catHigh]) = some catMid
    rw [List.foldl_cons, List.foldl_cons, List.foldl_nil, if_pos h1, if_neg h2]
  · rfl

end LangCore

namespace LangCore

theorem round_le_round {x y : ℝ} (h : x ≤ y) : round x ≤ round y := by
  rw [round_eq, round_eq]
  exact Int.floor_mono (by linarith)

theorem intervalDays_at_16_5 : intervalDays (16 / 5) = 3 := by
  have hc : ((16 / 5 : ℚ) : ℝ) = 16 / 5 := by norm_num
  have hlb : (16 / 5 : ℝ) ≤ (16 / 5 : ℝ) ^ ((107 : ℝ) / 100) := by
    have := Real.rpow_le_rpow_of_exponent_le (x := (16 / 5 : ℝ))
      (by norm_num) (by norm_num : (1 : ℝ) ≤ 107 / 100)
    rwa [Real.rpow_one] at this
  have hub : (16 / 5 : ℝ) ^ ((107 : ℝ) / 100) < 7 / 2 := by
    by_contra hcon
    push_neg at hcon
    have key : (16 / 5 : ℝ) ^ (107 : ℕ) < (7 / 2 : ℝ) ^ (100 : ℕ) := by norm_num
    have h100 : ((16 / 5 : ℝ) ^ ((107 : ℝ) / 100)) ^ (100 : ℕ) = (16 / 5 : ℝ) ^ (107 : ℕ) := by
      rw [← Real.rpow_natCast ((16 / 5 : ℝ) ^ ((107 : ℝ) / 100)) 100,
        ← Real.rpow_mul (by norm_num : (0 : ℝ) ≤ 16 / 5),
        show (107 : ℝ) / 100 * ((100 : ℕ) : ℝ) = ((107 : ℕ) : ℝ) by push_cast; ring,
        Real.rpow_natCast]
    have hmono : (7 / 2 : ℝ) ^ (100 : ℕ) ≤ ((16 / 5 : ℝ) ^ ((107 : ℝ) / 100)) ^ (100 : ℕ) :=
      pow_le_pow_left₀ (by norm_num) hcon 100
    rw [h100] at hmono
    linarith
  unfold intervalDays
  rw [hc, round_eq, show (3 : ℤ) = max 1 3 from rfl]
  congr 1
  rw [Int.floor_eq_iff]
  constructor
  · push_cast
    linarith
  · push_cast
    linarith

/-- C6: for every prior state and every rating 1..4 (again, hard, good,
easy), `review` returns `stability' = clamp(s * m, 0.3, 60)` with
multipliers `0.5, 0.9, 1.6, 2.2`, `difficulty' = clamp(d + delta, 1.3, 9.0)`
with delta `+0.3` for again, `0` for hard/good and `-0.2` for easy, and
`intervalDays = max(1, round(stability' ^ 1.07))`; in particular from
`{stability: 2.0, difficulty: 5.0}` rated good it returns
`(3.2, 5.0, 3 days)`. -/
theorem review_formulas (s d : ℚ) :
    (reviewS s 1 = min 60 (max (3 / 10) (s * (1 / 2))) ∧
      reviewS s 2 = min 60 (max (3 / 10) (s * (9 / 10))) ∧
      reviewS s 3 = min 60 (max (3 / 10) (s * (8 / 5))) ∧
      reviewS s 4 = min 60 (max (3 / 10) (s * (11 / 5)))) ∧
    (reviewD d 1 = min 9 (max (13 / 10) (d + 3 / 10)) ∧
      reviewD d 2 = min 9 (max (13 / 10) (d + 0)) ∧
      reviewD d 3 = min 9 (max (13 / 10) (d + 0)) ∧
      reviewD d 4 = min 9 (max (13 / 10) (d - 1 / 5))) ∧
    (∀ r : ℤ, review s d r =
      (reviewS s r, reviewD d r, max 1 (round (((reviewS s r : ℚ) : ℝ) ^ ((107 : ℝ) / 100))))) ∧
    review 2 5 3 = (16 / 5, 5, 3) := by
  have hS : reviewS 2 3 = 16 / 5 := by norm_num [reviewS, mult]
  have hD : reviewD 5 3 = 5 := by norm_num [reviewD, deltaD]
  refine ⟨⟨?_, ?_, ?_, ?_⟩, ⟨?_, ?_, ?_, ?_⟩, fun r => rfl, ?_⟩
  · norm_num [reviewS, mult]
  · norm_num [reviewS, mult]
  · norm_num [reviewS, mult]
  · norm_num [reviewS, mult]
  · norm_num [reviewD, deltaD]
  · norm_num [reviewD, deltaD]
  · norm_num [reviewD, deltaD]
  · norm_num [reviewD, deltaD]
    ring
  · show (reviewS 2 3, reviewD 5 3, intervalDays (reviewS 2 3)) = (16 / 5, 5, 3)
    rw [hS, hD, intervalDays_at_16_5]

end LangCore

namespace LangCore

theorem reviewS_nonneg (s : ℚ) (r : ℤ) : 0 ≤ reviewS s r := by
  unfold reviewS
  exact le_min (by norm_num) (le_trans (by norm_num) (le_max_left _ _))

theorem intervalDays_mono {a b : ℚ} (ha : 0 ≤ a) (hab : a ≤ b) :
    intervalDays a ≤ intervalDays b := by
  unfold intervalDays
  have h : ((a : ℚ) : ℝ) ^ ((107 : ℝ) / 100) ≤ ((b : ℚ) : ℝ) ^ ((107 : ℝ) / 100) :=
    Real.rpow_le_rpow (by exact_mod_cast ha) (by exact_mod_cast hab) (by norm_num)
  exact max_le_max (le_refl 1) (round_le_round h)

/-- C7 (amended): for every prior state with nonnegative stability, the
intervals are monotone in the rating, but only NON-strictly:
`intervalDays(again) ≤ intervalDays(hard) ≤ intervalDays(good) ≤
intervalDays(easy)`.  The 0.3/60 stability clamps and the rounding can
collapse adjacent ratings to equal intervals, so the strict ordering of the
claim fails. -/
theorem intervalDays_rating_mono (s : ℚ) (hs : 0 ≤ s) :
    intervalDays (reviewS s 1) ≤ intervalDays (reviewS s 2) ∧
    intervalDays (reviewS s 2) ≤ intervalDays (reviewS s 3) ∧
    intervalDays (reviewS s 3) ≤ intervalDays (reviewS s 4) := by
  have key : ∀ r1 r2 : ℤ, mult r1 ≤ mult r2 →
      intervalDays (reviewS s r1) ≤ intervalDays (reviewS s r2) := by
    intro r1 r2 h
    refine intervalDays_mono (reviewS_nonneg s r1) ?_
    unfold reviewS
    exact min_le_min (le_refl 60)
      (max_le_max (le_refl _) (mul_le_mul_of_nonneg_left h hs))
  exact ⟨key 1 2 (by norm_num [mult]), key 2 3 (by norm_num [mult]),
    key 3 4 (by norm_num [mult])⟩

/-- Witness for the amended C7 at stability `s = 2`. -/
theorem intervalDays_rating_mono_witness :
    (0 : ℚ) ≤ 2 ∧
    (intervalDays (reviewS 2 1) ≤ intervalDays (reviewS 2 2) ∧
      intervalDays (reviewS 2 2) ≤ intervalDays (reviewS 2 3) ∧
      intervalDays (reviewS 2 3) ≤ intervalDays (reviewS 2 4)) :=
  ⟨by norm_num, intervalDays_rating_mono 2 (by norm_num)⟩

/-- C7 counterexample: from stability `s = 1` (any difficulty), `again`
(rating 1) and `hard` (rating 2) both yield a 1-day interval, so
`intervalDays(hard) > intervalDays(again)` fails. -/
theorem intervalDays_not_strict :
    intervalDays (reviewS 1 1) = 1 ∧ intervalDays (reviewS 1 2) = 1 ∧
    ¬ intervalDays (reviewS 1 1) < intervalDays (reviewS 1 2) := by
  have hS1 : reviewS 1 1 = 1 / 2 := by norm_num [reviewS, mult]
  have hS2 : reviewS 1 2 = 9 / 10 := by norm_num [reviewS, mult]
  have h1 : intervalDays (1 / 2 : ℚ) = 1 := by
    unfold intervalDays
    have hc : ((1 / 2 : ℚ) : ℝ) = 1 / 2 := by norm_num
    have hpos : (0 : ℝ) < (1 / 2 : ℝ) ^ ((107 : ℝ) / 100) :=
      Real.rpow_pos_of_pos (by norm_num) _
    have hub : (1 / 2 : ℝ) ^ ((107 : ℝ) / 100) < 1 / 2 := by
      have := Real.rpow_lt_rpow_of_exponent_gt (x := (1 / 2 : ℝ))
        (by norm_num) (by norm_num) (by norm_num : (1 : ℝ) < 107 / 100)
      rwa [Real.rpow_one] at this
    rw [hc, round_eq, show (1 : ℤ) = max 1 0 from rfl]
    congr 1
    rw [Int.floor_eq_iff]
    constructor
    · push_cast
      linarith
    · push_cast
      linarith
  have h2 : intervalDays (9 / 10 : ℚ) = 1 := by
    unfold intervalDays
    have hc : ((9 / 10 : ℚ) : ℝ) = 9 / 10 := by norm_num
    have hub : (9 / 10 : ℝ) ^ ((107 : ℝ) / 100) < 9 / 10 := by
      have := Real.rpow_lt_rpow_of_exponent_gt (x := (9 / 10 : ℝ))
        (by norm_num) (by norm_num) (by norm_num : (1 : ℝ) < 107 / 100)
      rwa [Real.rpow_one] at this
    have hlb : (81 / 100 : ℝ) < (9 / 10 : ℝ) ^ ((107 : ℝ) / 100) := by
      have := Real.rpow_lt_rpow_of_exponent_gt (x := (9 / 10 : ℝ))
        (by norm_num) (by norm_num) (by norm_num : (107 : ℝ) / 100 < 2)
      have h2' : (9 / 10 : ℝ) ^ ((2 : ℕ) : ℝ) = 81 / 100 := by
        rw [Real.rpow_natCast]
        norm_num
      rw [show ((2 : ℕ) : ℝ) = (2 : ℝ) by norm_num] at h2'
      linarith [h2' ▸ this]
    rw [hc, round_eq, show (1 : ℤ) = max 1 1 from rfl]
    congr 1
    rw [Int.floor_eq_iff]
    constructor
    · push_cast
      linarith
    · push_cast
      linarith
  rw [hS1, hS2, h1, h2]
  norm_num

end LangCore

namespace LangCore

/-- C8: `update` adds `step` to `theta` on easy and subtracts it on hard,
increments `n`, and halves `step` exactly when the incremented `n` is even
(so for nonnegative step the step never increases); the example sequence
`[easy, easy, hard, easy, hard, hard, easy, easy, hard]` from `start()`
reaches `n = 9` with the step trace
`1, 1, 1/2, 1/2, 1/4, 1/4, 1/8, 1/8, 1/16, 1/16` (halving at each even `n`)
and final state `(theta, step, n) = (27/16, 1/16, 9)`. -/
theorem pout_hard_ne_easy : ¬ (POutcome.hard = POutcome.easy) := by
  decide

theorem update_spec (s : PlacementState) (o : POutcome) (hs : 0 ≤ s.step) :
    (update s o).theta = s.theta + (if o = POutcome.easy then s.step else -s.step) ∧
    (update s o).n = s.n + 1 ∧
    (update s o).step = (if (s.n + 1) % 2 = 0 then s.step * (1 / 2) else s.step) ∧
    (update s o).step ≤ s.step ∧
    List.foldl update start demoResponses = ⟨27 / 16, 1 / 16, 9⟩ ∧
    (demoResponses.scanl update start).map PlacementState.step
      = [1, 1, 1 / 2, 1 / 2, 1 / 4, 1 / 4, 1 / 8, 1 / 8, 1 / 16, 1 / 16] := by
    refine ⟨rfl, rfl, rfl, ?_, ?_, ?_⟩
    · show (if (s.n + 1) % 2 = 0 then s.step * (1 / 2) else s.step) ≤ s.step
      split_ifs
      · linarith
      · exact le_refl _
    · norm_num [demoResponses, start, update, List.foldl, pout_hard_ne_easy]
    · norm_num [demoResponses, start, update, List.scanl, pout_hard_ne_easy]

/-- Witness for C8 at the initial state and an easy response. -/
theorem update_spec_witness :
    (0 : ℚ) ≤ start.step ∧
    ((update start POutcome.easy).theta
        = start.theta + (if POutcome.easy = POutcome.easy then start.step else -start.step) ∧
      (update start POutcome.easy).n = start.n + 1 ∧
      (update start POutcome.easy).step
        = (if (start.n + 1) % 2 = 0 then start.step * (1 / 2) else start.step) ∧
      (update start POutcome.easy).step ≤ start.step ∧
      List.foldl update start demoResponses = ⟨27 / 16, 1 / 16, 9⟩ ∧
      (demoResponses.scanl update start).map PlacementState.step
        = [1, 1, 1 / 2, 1 / 2, 1 / 4, 1 / 4, 1 / 8, 1 / 8, 1 / 16, 1 / 16]) :=
  ⟨by norm_num [start], update_spec start POutcome.easy (by norm_num [start])⟩

theorem foldl_update_n (os : List POutcome) :
    ∀ s : PlacementState, (List.foldl update s os).n = s.n + os.length := by
  induction os with
  | nil => intro s; simp
  | cons o os ih =>
    intro s
    rw [List.foldl_cons, ih, List.length_cons]
    show (update s o).n + os.length = s.n + (os.length + 1)
    simp [update]
    omega

/-- C9: `shouldStop` is true exactly when `(n ≥ 10 and step ≤ 0.2) or
n ≥ 15`; since each `update` increments `n` by one and `start` has `n = 0`,
any response sequence of length at least 15 ends in a stopping state — the
hard cap guarantees termination of the placement loop. -/
theorem shouldStop_spec (s : PlacementState) (os : List POutcome)
    (h : 15 ≤ os.length) :
    (shouldStop s = true ↔ ((10 ≤ s.n ∧ s.step ≤ 1 / 5) ∨ 15 ≤ s.n)) ∧
    shouldStop (List.foldl update start os) = true := by
  constructor
  · unfold shouldStop
    simp [Bool.or_eq_true, Bool.and_eq_true, decide_eq_true_eq]
  · have hn : 15 ≤ (List.foldl update start os).n := by
      rw [foldl_update_n]
      simpa [start] using h
    unfold shouldStop
    simp only [Bool.or_eq_true, Bool.and_eq_true, decide_eq_true_eq]
    exact Or.inr hn

/-- Witness for C9: fifteen easy responses from `start` reach a stopping
state. -/
theorem shouldStop_spec_witness :
    15 ≤ (List.replicate 15 POutcome.easy).length ∧
    ((shouldStop start = true ↔ ((10 ≤ start.n ∧ start.step ≤ 1 / 5) ∨ 15 ≤ start.n)) ∧
      shouldStop (List.foldl update start (List.replicate 15 POutcome.easy)) = true) :=
  ⟨by simp, shouldStop_spec start (List.replicate 15 POutcome.easy) (by simp)⟩

end LangCore

namespace LangCore

/-- C10 counterexample: called with the precondition-violating input
`rating = 7` and `stability = -1`, the core `review` does not reject — it
computes a silently coerced result: the unrecognized rating falls through to
the easy multiplier `2.2` and the negative stability is clamped up to the
`0.3` floor. -/
theorem review_no_guard :
    reviewS (-1) 7 = 3 / 10 ∧ reviewD 5 7 = 5 ∧ mult 7 = 11 / 5 ∧ mult 7 = mult 4 := by
  norm_num [reviewS, reviewD, mult, deltaD]

/-- C10 (amended): the core performs no validation at all: every rating
outside `{1..4}` silently falls through to the easy multiplier `2.2`, and a
negative stability is silently clamped to the `0.3` floor rather than
rejected; out-of-range ratings are rejected only by the API boundary
validator (`StudyReviewSchema`), never by the core. -/
theorem review_coerces (r : ℤ) (s : ℚ) (hr : r < 1 ∨ 4 < r) (hs : s < 0) :
    mult r = 11 / 5 ∧ reviewS s r = 3 / 10 ∧ studyReviewRatingValid r = false := by
  have h1 : r ≠ 1 := by rcases hr with h | h <;> omega
  have h2 : r ≠ 2 := by rcases hr with h | h <;> omega
  have h3 : r ≠ 3 := by rcases hr with h | h <;> omega
  have hmult : mult r = 11 / 5 := by
    unfold mult
    rw [if_neg h1, if_neg h2, if_neg h3]
  refine ⟨hmult, ?_, ?_⟩
  · unfold reviewS
    rw [hmult]
    have hneg : s * (11 / 5) < 0 := mul_neg_of_neg_of_pos hs (by norm_num)
    rw [max_eq_left (by linarith), min_eq_right (by norm_num)]
  · have hv : ¬ (1 ≤ r ∧ r ≤ 4) := by rcases hr with h | h <;> omega
    unfold studyReviewRatingValid
    rcases hr with h | h
    · simp only [Bool.and_eq_false_iff]
      left
      simpa using (by omega : ¬ 1 ≤ r)
    · simp only [Bool.and_eq_false_iff]
      right
      simpa using (by omega : ¬ r ≤ 4)

/-- Witness for the amended C10 at `rating = 7`, `stability = -1`. -/
theorem review_coerces_witness :
    ((7 : ℤ) < 1 ∨ (4 : ℤ) < 7) ∧ (-1 : ℚ) < 0 ∧
    (mult 7 = 11 / 5 ∧ reviewS (-1) 7 = 3 / 10 ∧ studyReviewRatingValid 7 = false) :=
  ⟨Or.inr (by norm_num), by norm_num, review_coerces 7 (-1) (Or.inr (by norm_num)) (by norm_num)⟩

end LangCore
